import Mathlib

/-!
Verification development for the go-config configuration library
(`github.com/os-golib/go-config`).

The Go source is shallow-embedded: Go `map[string]any` values become
association lists over an inductive value type `GoVal`; effectful
`Load()` calls become pure outcomes fixed for the call under analysis;
machine integers become `Int`/`Nat` (no claim in scope exercises
overflow); `time.Duration` becomes `Int` nanoseconds; wall-clock time
becomes an explicit `now : Int` parameter.
-/

namespace GoConfig

/-- Values stored in configuration maps.  Covers the value shapes the
library's sources produce (decoded JSON/YAML trees, env strings,
caller-supplied memory maps): scalars, lists (`[]any`) and nested
objects (`map[string]any`).  Go `float64` and `time.Duration` typed
values are outside the modelled domain; no claim in scope stores them. -/
inductive GoVal where
  | vStr : String → GoVal
  | vInt : Int → GoVal
  | vBool : Bool → GoVal
  | vList : List GoVal → GoVal
  | vMap : List (String × GoVal) → GoVal

/-- A Go `map[string]any`, as an association list.  Go maps are
unordered with unique keys; iteration in the model follows list order,
and theorems that depend on key uniqueness carry a `Nodup` hypothesis. -/
abbrev GoMap := List (String × GoVal)

/-- Map lookup (`m[k]` with its `ok` flag). -/
def alookup {α : Type} : List (String × α) → String → Option α
  | [], _ => none
  | (k1, v1) :: rest, key => if k1 = key then some v1 else alookup rest key

/-- Map write `m[k] = v`: replace the entry if the key is present,
append otherwise. -/
def gInsert {α : Type} : List (String × α) → String → α → List (String × α)
  | [], k, v => [(k, v)]
  | (k1, v1) :: rest, k, v =>
      if k1 = k then (k, v) :: rest else (k1, v1) :: gInsert rest k v

/-- The keys of a map. -/
def keysOf {α : Type} (m : List (String × α)) : List String := m.map Prod.fst

/-- `deepMerge(dst, src)` from builder.go: for every key of `src`, if
both sides hold a nested map, merge recursively; otherwise `src`'s
value replaces `dst`'s. -/
def deepMerge (dst : GoMap) : GoMap → GoMap
  | [] => dst
  | (k, GoVal.vMap sm) :: rest =>
      (match alookup dst k with
       | some (GoVal.vMap dm) => deepMerge (gInsert dst k (GoVal.vMap (deepMerge dm sm))) rest
       | _ => deepMerge (gInsert dst k (GoVal.vMap sm)) rest)
  | (k, v) :: rest => deepMerge (gInsert dst k v) rest
termination_by src => sizeOf src
decreasing_by all_goals (simp_wf <;> omega)

/-- The value `deepMerge` stores at one key of `src`: recursive merge
when both sides are maps, replacement otherwise. -/
def dmVal (o : Option GoVal) (v : GoVal) : GoVal :=
  match o, v with
  | some (GoVal.vMap dm), GoVal.vMap sm => GoVal.vMap (deepMerge dm sm)
  | _, _ => v

/-- Whether a value is a nested map (the only case `deepMerge` treats
specially). -/
def GoVal.isMap : GoVal → Bool
  | GoVal.vMap _ => true
  | _ => false

/-- Whether a value is a scalar (not a nested map and not a list). -/
def GoVal.isScalar : GoVal → Bool
  | GoVal.vStr _ => true
  | GoVal.vInt _ => true
  | GoVal.vBool _ => true
  | _ => false

/-! ### Decimal rendering of naturals (`fmt`'s `%d` for indexes) -/

/-- Decimal digits of `n`, least significant first; `0` has no digits. -/
def digitsLSF : Nat → List Nat
  | 0 => []
  | n + 1 => ((n + 1) % 10) :: digitsLSF ((n + 1) / 10)
decreasing_by exact Nat.div_lt_self (Nat.succ_pos n) (by omega)

/-- One decimal digit as a character. -/
def digitChar (d : Nat) : Char :=
  if d = 0 then '0' else if d = 1 then '1' else if d = 2 then '2'
  else if d = 3 then '3' else if d = 4 then '4' else if d = 5 then '5'
  else if d = 6 then '6' else if d = 7 then '7' else if d = 8 then '8'
  else '9'

/-- Decimal rendering of a natural number, as produced by `%d`. -/
def natToString (n : Nat) : String :=
  if n = 0 then "0"
  else String.mk (((digitsLSF n).map digitChar).reverse)

/-- Rebuild a natural from least-significant-first digits. -/
def undigits : List Nat → Nat
  | [] => 0
  | d :: rest => d + 10 * undigits rest

theorem undigits_digitsLSF : ∀ n : Nat, undigits (digitsLSF n) = n := by
  intro n
  induction n using Nat.strong_induction_on with
  | _ n ih =>
    match n with
    | 0 => simp [digitsLSF, undigits]
    | m + 1 =>
      rw [digitsLSF]
      rw [undigits]
      rw [ih ((m + 1) / 10) (Nat.div_lt_self (Nat.succ_pos m) (by omega))]
      omega

theorem digitsLSF_lt_ten : ∀ n : Nat, ∀ d ∈ digitsLSF n, d < 10 := by
  intro n
  induction n using Nat.strong_induction_on with
  | _ n ih =>
    match n with
    | 0 => intro d hd; simp [digitsLSF] at hd
    | m + 1 =>
      intro d hd
      rw [digitsLSF] at hd
      rcases List.mem_cons.mp hd with h | h
      · omega
      · exact ih ((m + 1) / 10) (Nat.div_lt_self (Nat.succ_pos m) (by omega)) d h

theorem digitChar_inj {d e : Nat} (hd : d < 10) (he : e < 10)
    (h : digitChar d = digitChar e) : d = e := by
  interval_cases d <;> interval_cases e <;> simp_all [digitChar]

theorem map_digitChar_inj : ∀ l1 l2 : List Nat, (∀ d ∈ l1, d < 10) →
    (∀ d ∈ l2, d < 10) → l1.map digitChar = l2.map digitChar → l1 = l2 := by
  intro l1
  induction l1 with
  | nil => intro l2 _ _ h; cases l2 <;> simp_all
  | cons a t ih =>
    intro l2 h1 h2 h
    cases l2 with
    | nil => simp_all
    | cons b t2 =>
      simp only [List.map_cons, List.cons.injEq] at h
      have ha : a = b := digitChar_inj (h1 a (by simp)) (h2 b (by simp)) h.1
      have ht : t = t2 := ih t2 (fun d hd => h1 d (by simp [hd]))
        (fun d hd => h2 d (by simp [hd])) h.2
      rw [ha, ht]

theorem natToString_inj : ∀ m n : Nat, natToString m = natToString n → m = n := by
  have hz : ∀ k : Nat, k ≠ 0 → natToString k ≠ "0" := by
    intro k hk habs
    rw [natToString, if_neg hk] at habs
    have hdig : (digitsLSF k).map digitChar = [digitChar 0] := by
      have : ((digitsLSF k).map digitChar).reverse = ['0'] := by
        have := congrArg String.data habs
        simpa using this
      have h2 := congrArg List.reverse this
      simpa [digitChar] using h2
    have hzero : digitsLSF k = [0] :=
      map_digitChar_inj (digitsLSF k) [0] (digitsLSF_lt_ten k)
        (by intro d hd; simp at hd; omega) (by simpa using hdig)
    have hu := undigits_digitsLSF k
    rw [hzero] at hu
    exact hk (by simpa [undigits] using hu.symm)
  intro m n h
  by_cases hm : m = 0
  · by_cases hn : n = 0
    · rw [hm, hn]
    · exact absurd h.symm (by rw [hm]; exact fun hh => hz n hn (by simpa [natToString] using hh))
  · by_cases hn : n = 0
    · exact absurd h (by rw [hn]; exact fun hh => hz m hm (by simpa [natToString] using hh))
    · rw [natToString, if_neg hm, natToString, if_neg hn] at h
      have hl : ((digitsLSF m).map digitChar).reverse = ((digitsLSF n).map digitChar).reverse := by
        have := congrArg String.data h
        simpa using this
      have hl2 : (digitsLSF m).map digitChar = (digitsLSF n).map digitChar :=
        List.reverse_injective hl
      have : digitsLSF m = digitsLSF n :=
        map_digitChar_inj _ _ (digitsLSF_lt_ten m) (digitsLSF_lt_ten n) hl2
      have h1 := undigits_digitsLSF m
      have h2 := undigits_digitsLSF n
      rw [this] at h1
      omega

/-! ### `fmt.Sprint` on stored values -/

/-- Insert an entry into a key-ascending list (used because Go's `fmt`
prints map entries in sorted key order). -/
def insertByKeyAsc (p : String × GoVal) : List (String × GoVal) → List (String × GoVal)
  | [] => [p]
  | q :: rest => if p.1 < q.1 then p :: q :: rest else q :: insertByKeyAsc p rest

/-- Sort map entries by key ascending. -/
def sortEntries (m : List (String × GoVal)) : List (String × GoVal) :=
  m.foldl (fun acc p => insertByKeyAsc p acc) []

mutual

/-- Computable size of a value (fuel for `goSprint`). -/
def gsize : GoVal → Nat
  | GoVal.vStr _ => 1
  | GoVal.vInt _ => 1
  | GoVal.vBool _ => 1
  | GoVal.vList xs => 1 + gsizeL xs
  | GoVal.vMap m => 1 + gsizeM m
termination_by v => sizeOf v

/-- Size of a list of values. -/
def gsizeL : List GoVal → Nat
  | [] => 0
  | x :: rest => gsize x + gsizeL rest
termination_by xs => sizeOf xs

/-- Size of a list of map entries. -/
def gsizeM : List (String × GoVal) → Nat
  | [] => 0
  | (_, v) :: rest => gsize v + gsizeM rest
termination_by m => sizeOf m

end

/-- `fmt.Sprint` of a stored value, with explicit recursion fuel.
Scalar cases consume no fuel; `goSprint` supplies `gsize v` fuel,
which strictly dominates the nesting depth, so the out-of-fuel rows
are never reached from `goSprint`. -/
def sprintF : Nat → GoVal → String
  | _, GoVal.vStr s => s
  | _, GoVal.vInt n => toString n
  | _, GoVal.vBool b => cond b "true" "false"
  | f + 1, GoVal.vList xs =>
      "[" ++ String.intercalate " " (xs.map (sprintF f)) ++ "]"
  | f + 1, GoVal.vMap m =>
      "map[" ++ String.intercalate " "
        ((sortEntries m).map (fun p => p.1 ++ ":" ++ sprintF f p.2)) ++ "]"
  | 0, GoVal.vList _ => ""
  | 0, GoVal.vMap _ => ""

/-- `fmt.Sprint` of one stored value. -/
def goSprint (v : GoVal) : String := sprintF (gsize v) v

/-- `deepEqual` from builder.go: equality of `fmt.Sprint` renderings. -/
def deepEqual (a b : GoVal) : Bool := goSprint a == goSprint b

/-! ### Flattening (source.go) -/

/-- `joinKeys` from source.go. -/
def joinKeys (a b : String) : String := if a = "" then b else a ++ "." ++ b

/-- `joinList` from source.go: comma-join of the elements' string forms. -/
def joinList (xs : List GoVal) : String :=
  String.intercalate "," (xs.map goSprint)

/-- `flatten` from source.go, with explicit recursion fuel (scalar
rows consume none; `flatten` supplies `gsize v`, which strictly
dominates the nesting depth, so the out-of-fuel rows are never reached
from `flatten`).  Nested maps recurse per entry under a dotted key;
lists write each element under `pre.i` and then the comma-joined
string form at `pre` itself; other values are stored at `pre`.  (The
Go `map[any]any` row only stringifies keys, which the model's
string-keyed maps already are.) -/
def flattenF : Nat → String → GoVal → GoMap → GoMap
  | _, pre, GoVal.vStr s, out => gInsert out pre (GoVal.vStr s)
  | _, pre, GoVal.vInt n, out => gInsert out pre (GoVal.vInt n)
  | _, pre, GoVal.vBool b, out => gInsert out pre (GoVal.vBool b)
  | f + 1, pre, GoVal.vMap m, out =>
      m.foldl (fun acc p => flattenF f (joinKeys pre p.1) p.2 acc) out
  | f + 1, pre, GoVal.vList xs, out =>
      gInsert
        (xs.enum.foldl (fun acc p => flattenF f (pre ++ "." ++ natToString p.1) p.2 acc) out)
        pre (GoVal.vStr (joinList xs))
  | 0, _, GoVal.vMap _, out => out
  | 0, _, GoVal.vList _, out => out

/-- `flatten` from source.go. -/
def flatten (pre : String) (v : GoVal) (out : GoMap) : GoMap :=
  flattenF (gsize v) pre v out

/-- `flattenToDot` from source.go. -/
def flattenToDot (m : GoMap) : GoMap := flatten "" (GoVal.vMap m) []

/-! ### Scanning helpers for the typed getters

`fmt.Sscanf` with `%d`/`%f` and `time.ParseDuration` are Go standard
library collaborators; they are modelled on the input shapes the
library's stored values produce (no exponents, hex or fractional
duration components, none of which any claim exercises). -/

/-- `fmt.Sscanf(s, "%d", ...)`: optional spaces and sign, then at least
one digit; trailing input is ignored. -/
def sscanInt (s : String) : Option Int :=
  let cs := s.toList.dropWhile (fun c => c = ' ')
  let signed : Bool × List Char :=
    match cs with
    | '-' :: rest => (true, rest)
    | '+' :: rest => (false, rest)
    | _ => (false, cs)
  let ds := signed.2.takeWhile Char.isDigit
  if ds.isEmpty then none
  else
    let n : Int := Int.ofNat (ds.foldl (fun a c => a * 10 + (c.toNat - 48)) 0)
    some (if signed.1 then -n else n)

/-- `fmt.Sscanf(s, "%f", ...)`: optional spaces and sign, digits with
an optional fractional part; at least one digit overall. -/
def sscanFloat (s : String) : Option ℚ :=
  let cs := s.toList.dropWhile (fun c => c = ' ')
  let signed : Bool × List Char :=
    match cs with
    | '-' :: rest => (true, rest)
    | '+' :: rest => (false, rest)
    | _ => (false, cs)
  let ip := signed.2.takeWhile Char.isDigit
  let rest1 := signed.2.dropWhile Char.isDigit
  let fp :=
    match rest1 with
    | '.' :: tl => tl.takeWhile Char.isDigit
    | _ => []
  if ip.isEmpty && fp.isEmpty then none
  else
    let ipn : ℚ := (ip.foldl (fun a c => a * 10 + (c.toNat - 48)) 0 : Nat)
    let fpn : ℚ := (fp.foldl (fun a c => a * 10 + (c.toNat - 48)) 0 : Nat)
    let q : ℚ := ipn + fpn / ((10 : ℚ) ^ fp.length)
    some (if signed.1 then -q else q)

/-- A duration unit suffix and its length in nanoseconds. -/
def durUnitNs : List Char → Option (Int × List Char)
  | 'n' :: 's' :: rest => some (1, rest)
  | 'u' :: 's' :: rest => some (1000, rest)
  | 'µ' :: 's' :: rest => some (1000, rest)
  | 'm' :: 's' :: rest => some (1000000, rest)
  | 'm' :: rest => some (60000000000, rest)
  | 's' :: rest => some (1000000000, rest)
  | 'h' :: rest => some (3600000000000, rest)
  | _ => none

/-- The repeated number-unit groups of a duration literal. -/
def parseDurGroups : Nat → List Char → Option Int
  | 0, _ => none
  | f + 1, cs =>
    let ds := cs.takeWhile Char.isDigit
    if ds.isEmpty then none
    else
      let n : Int := Int.ofNat (ds.foldl (fun a c => a * 10 + (c.toNat - 48)) 0)
      match durUnitNs (cs.dropWhile Char.isDigit) with
      | none => none
      | some (u, rest) =>
        if rest.isEmpty then some (n * u)
        else
          match parseDurGroups f rest with
          | none => none
          | some v => some (n * u + v)

/-- `time.ParseDuration`, restricted to integer components: optional
sign, the bare-zero special case, else number-unit groups. -/
def parseDuration (s : String) : Option Int :=
  let cs := s.toList
  let signed : Bool × List Char :=
    match cs with
    | '-' :: rest => (true, rest)
    | '+' :: rest => (false, rest)
    | _ => (false, cs)
  if signed.2 = ['0'] then some 0
  else
    match parseDurGroups (signed.2.length + 1) signed.2 with
    | none => none
    | some v => some (if signed.1 then -v else v)

/-! ### Sources and the engine (builder.go, source.go) -/

/-- A configuration source: identity, priority and the outcome of its
`Load()` during the call under analysis. -/
structure Source where
  name : String
  priority : Int
  load : Except String GoMap

/-- `MemoryWithPriority` from source.go (cloning is identity under the
model's value semantics). -/
def MemoryWithPriority (data : GoMap) (priority : Int) : Source :=
  { name := "memory", priority := priority, load := Except.ok data }

/-- One pass of the insertion sort in `Config.sortSources`: place `cur`
before the first strictly higher-priority element of the sorted list,
after any equal-priority ones (stable). -/
def insertSorted (cur : Source) : List Source → List Source
  | [] => [cur]
  | t :: rest =>
      if t.priority > cur.priority then cur :: t :: rest
      else t :: insertSorted cur rest

/-- `Config.sortSources` from builder.go: stable insertion sort by
ascending priority. -/
def sortSources (l : List Source) : List Source :=
  l.foldl (fun acc cur => insertSorted cur acc) []

/-- The engine state.  Hooks are modelled by their outcome on the load
under analysis (pre-load) or their data transformation (post-load,
which in Go mutates the accumulated map in place); lists are kept in
the priority order `HookManager.Register` maintains.  `valueChecker`
models the injectable go-playground validator: it receives a present
value and the *effective* validate tag `validateValue`'s struct tag
yields, and reports the first failure (`none` on an empty tag, which
the external validator does not check). -/
structure Config where
  sources : List Source
  data : GoMap
  validationRules : List (String × String)
  preLoad : List (String × Except String Unit)
  postLoad : List (String × (GoMap → Except String GoMap))
  valueChecker : GoVal → String → Option String

/-- A `Config` as `New()` builds it: everything empty, a validator in
place. -/
def baseConfig (checker : GoVal → String → Option String) : Config :=
  { sources := [], data := [], validationRules := [],
    preLoad := [], postLoad := [], valueChecker := checker }

/-- `Config.AddSource`: append, then re-sort by priority. -/
def Config.AddSource (c : Config) (src : Source) : Config :=
  { c with sources := sortSources (c.sources ++ [src]) }

/-- The errors `Config.Load` can return, one constructor per `fmt.Errorf`
wrap site. -/
inductive LoadError where
  | preLoadHook : String → String → LoadError
  | sourceError : String → String → LoadError
  | postLoadHook : String → String → LoadError
  | validation : List (String × String) → LoadError

/-- `HookManager.ExecutePreLoad`: first failing hook, with its name. -/
def execPreLoad : List (String × Except String Unit) → Option (String × String)
  | [] => none
  | (n, Except.error e) :: _ => some (n, e)
  | (_, Except.ok _) :: rest => execPreLoad rest

/-- `HookManager.ExecutePostLoad`: thread the accumulated map through
the hooks, stopping at the first failure. -/
def execPostLoad (data : GoMap) : List (String × (GoMap → Except String GoMap)) →
    Except (String × String) GoMap
  | [] => Except.ok data
  | (n, f) :: rest =>
    match f data with
    | Except.error e => Except.error (n, e)
    | Except.ok d2 => execPostLoad d2 rest

/-- The source loop of `Config.Load`: load each source in order,
deep-merging into the accumulator; a failure aborts with the source's
name. -/
def loadSources : List Source → GoMap → Except (String × String) GoMap
  | [], acc => Except.ok acc
  | s :: rest, acc =>
    match s.load with
    | Except.error e => Except.error (s.name, e)
    | Except.ok d => loadSources rest (deepMerge acc d)

/-- `detectChanges` from builder.go: keys of `updated` that are new or
whose value differs under `deepEqual`. -/
def detectChanges (old updated : GoMap) : GoMap :=
  updated.filter (fun p =>
    match alookup old p.1 with
    | none => true
    | some oldVal => !deepEqual oldVal p.2)

/-- `strings.Contains`: the pattern occurs as a prefix of some suffix. -/
def goContains (s pat : String) : Bool :=
  s.toList.tails.any (fun t => pat.toList.isPrefixOf t)

/-! ### The struct tag `validateValue` builds (builder.go:766-788)

`validateValue` wraps the value in a one-field struct whose tag is
built by `fmt.Sprintf` with the format `validate:"%q"` — the format
supplies one pair of double quotes and `%q` adds another.  The
external validator then reads the tag back with
`reflect.StructTag.Get("validate")`.  Both steps are modelled here:
`goQuote` is `%q` (restricted to escaping quotes and backslashes, all
any rule in scope contains), and `structTagGet` is the scan loop of
`reflect.StructTag.Lookup`. -/

/-- The escaping `%q` applies inside its quotes (quote and backslash;
control characters do not occur in rule strings). -/
def goQuoteEsc : List Char → List Char
  | [] => []
  | '"' :: rest => '\\' :: '"' :: goQuoteEsc rest
  | '\\' :: rest => '\\' :: '\\' :: goQuoteEsc rest
  | c :: rest => c :: goQuoteEsc rest

/-- `fmt`'s `%q`: a double-quoted Go string literal. -/
def goQuote (s : String) : String :=
  "\"" ++ String.mk (goQuoteEsc s.toList) ++ "\""

/-- A character the tag-name scan of `StructTag.Lookup` accepts:
above space, not a colon, quote or DEL. -/
def isTagNameChar (c : Char) : Bool :=
  decide (' ' < c) && !(c == ':') && !(c == '"') && !(c.toNat == 0x7f)

/-- The quoted-section scan of `StructTag.Lookup`, entered after the
opening quote: collect up to and including the closing quote, a
backslash escaping the next character. -/
def scanQuotedAux : List Char → Option (List Char × List Char)
  | '\\' :: c :: rest => (scanQuotedAux rest).map (fun p => ('\\' :: c :: p.1, p.2))
  | '"' :: rest => some (['"'], rest)
  | c :: rest => (scanQuotedAux rest).map (fun p => (c :: p.1, p.2))
  | [] => none

/-- `strconv.Unquote` on the interior of a double-quoted literal: the
closing quote must be last, with quote and backslash escapes (the only
ones the modelled tags can contain). -/
def unqAux : List Char → Option (List Char)
  | ['"'] => some []
  | '"' :: _ => none
  | '\\' :: '\\' :: rest => (unqAux rest).map (fun l => '\\' :: l)
  | '\\' :: '"' :: rest => (unqAux rest).map (fun l => '"' :: l)
  | '\\' :: _ => none
  | c :: rest => (unqAux rest).map (fun l => c :: l)
  | [] => none

/-- `strconv.Unquote` of a double-quoted literal. -/
def goUnquote : List Char → Option String
  | '"' :: rest => (unqAux rest).map String.mk
  | _ => none

/-- The loop of `reflect.StructTag.Lookup`: skip spaces, scan a name,
require `:"`, scan the quoted section; on the queried key unquote it
(any failure yields the empty string), otherwise continue on the rest. -/
def structTagGetAux : Nat → List Char → String → String
  | 0, _, _ => ""
  | f + 1, tag, key =>
    let tag1 := tag.dropWhile (fun c => c == ' ')
    match tag1 with
    | [] => ""
    | _ :: _ =>
      match tag1.takeWhile isTagNameChar, tag1.dropWhile isTagNameChar with
      | [], _ => ""
      | name, ':' :: '"' :: rest2 =>
        (match scanQuotedAux rest2 with
         | none => ""
         | some (v, rest3) =>
           if String.mk name = key then
             match goUnquote ('"' :: v) with
             | some s => s
             | none => ""
           else structTagGetAux f rest3 key)
      | _, _ => ""

/-- `reflect.StructTag.Get`. -/
def structTagGet (tag key : String) : String :=
  structTagGetAux (tag.length + 1) tag.toList key

/-- `Config.validateValue` from builder.go: the rule reaches the
external validator only through the tag
`fmt.Sprintf` builds with format `validate:"%q"` and
`StructTag.Get("validate")` reads back — the doubled quoting makes
that an empty effective tag for every rule. -/
def Config.validateValue (c : Config) (value : GoVal) (rule : String) : Option String :=
  c.valueChecker value
    (structTagGet ("validate:\"" ++ goQuote rule ++ "\"") "validate")

/-- `Config.ValidateKey` from builder.go. -/
def Config.ValidateKey (c : Config) (key : String) : Option String :=
  match alookup c.validationRules key with
  | none => none
  | some rule =>
    match alookup c.data key with
    | none =>
        if goContains rule "required" then
          some ("key \"" ++ key ++ "\" is required but not found")
        else none
    | some v => c.validateValue v rule

/-- The loop body of `Config.ValidateAll`: what one registered rule
contributes to the collected failures. -/
def validateEntry (c : Config) (kr : String × String) : Option (String × String) :=
  match alookup c.data kr.1 with
  | none => if goContains kr.2 "required" then some (kr.1, "is required") else none
  | some v =>
    match c.validateValue v kr.2 with
    | some msg => some (kr.1, msg)
    | none => none

/-- `Config.ValidateAll` from builder.go: every rule checked against
the current data, failures collected keyed by field; `none` when all
pass. -/
def Config.ValidateAll (c : Config) : Option (List (String × String)) :=
  let errs := c.validationRules.filterMap (validateEntry c)
  if errs.isEmpty then none else some errs

/-- What one `Config.Load()` call produces: the engine afterwards, the
returned error, and the changed subset handed to observers (`none`
when no notification happens). -/
structure LoadResult where
  config : Config
  err : Option LoadError
  notified : Option GoMap

/-- `Config.Load` from builder.go: pre-load hooks, the source merge
loop, post-load hooks, change detection, state replacement, observer
notification, then — only once the new state is already committed —
validation when rules are registered. -/
def Config.Load (c : Config) : LoadResult :=
  match execPreLoad c.preLoad with
  | some (n, e) => ⟨c, some (LoadError.preLoadHook n e), none⟩
  | none =>
    match loadSources c.sources [] with
    | Except.error (n, e) => ⟨c, some (LoadError.sourceError n e), none⟩
    | Except.ok merged =>
      match execPostLoad merged c.postLoad with
      | Except.error (n, e) => ⟨c, some (LoadError.postLoadHook n e), none⟩
      | Except.ok merged2 =>
        let changed := detectChanges c.data merged2
        let c2 := { c with data := merged2 }
        let notified := if changed.isEmpty then none else some changed
        if c.validationRules.isEmpty then ⟨c2, none, notified⟩
        else
          match c2.ValidateAll with
          | some errs => ⟨c2, some (LoadError.validation errs), notified⟩
          | none => ⟨c2, none, notified⟩

/-! ### Typed getters (builder.go) -/

/-- `Config.Get`. -/
def Config.Get (c : Config) (key : String) : Option GoVal := alookup c.data key

/-- Go's `var zero T` versus the variadic default list. -/
def defaultsOr {T : Type} (defaultVal : List T) (zero : T) : T :=
  match defaultVal with
  | d :: _ => d
  | [] => zero

/-- `getTyped` from builder.go (the zero value of `T` is passed
explicitly). -/
def getTyped {T : Type} (c : Config) (key : String) (defaultVal : List T)
    (zero : T) (conv : GoVal → Option T) : T :=
  match c.Get key with
  | some v =>
    match conv v with
    | some converted => converted
    | none => defaultsOr defaultVal zero
  | none => defaultsOr defaultVal zero

/-- `GetString`'s converter: a stored string as is, anything else via
`fmt.Sprint`; never fails. -/
def convString (v : GoVal) : Option String :=
  match v with
  | GoVal.vStr s => some s
  | _ => some (goSprint v)

/-- `GetInt`'s converter: a stored int as is, else `Sscanf %d` on the
string form. -/
def convInt (v : GoVal) : Option Int :=
  match v with
  | GoVal.vInt i => some i
  | _ => sscanInt (goSprint v)

/-- `GetBool`'s converter: a stored bool as is; any other value is
compared against the tokens `true`, `1`, `yes` — and always succeeds,
reporting `false` for unrecognized tokens. -/
def convBool (v : GoVal) : Option Bool :=
  match v with
  | GoVal.vBool b => some b
  | _ =>
    let s := goSprint v
    some (s == "true" || s == "1" || s == "yes")

/-- `GetDuration`'s converter: parse the non-empty string form (the
stored-`time.Duration` row of the Go switch is outside the modelled
value domain). -/
def convDuration (v : GoVal) : Option Int :=
  let s := goSprint v
  if s = "" then none else parseDuration s

/-- `GetFloat`'s converter: `Sscanf %f` on the string form (the
stored-`float64` row is outside the modelled value domain). -/
def convFloat (v : GoVal) : Option ℚ := sscanFloat (goSprint v)

/-- `GetStringSlice`'s converter: split a stored string on commas, map
`fmt.Sprint` over a stored list, fail otherwise. -/
def convStringSlice (v : GoVal) : Option (List String) :=
  match v with
  | GoVal.vStr s => some (s.splitOn ",")
  | GoVal.vList xs => some (xs.map goSprint)
  | _ => none

/-- `Config.GetString`. -/
def Config.GetString (c : Config) (key : String) (defaultVal : List String) : String :=
  getTyped c key defaultVal "" convString

/-- `Config.GetInt`. -/
def Config.GetInt (c : Config) (key : String) (defaultVal : List Int) : Int :=
  getTyped c key defaultVal 0 convInt

/-- `Config.GetBool`. -/
def Config.GetBool (c : Config) (key : String) (defaultVal : List Bool) : Bool :=
  getTyped c key defaultVal false convBool

/-- `Config.GetDuration` (durations in nanoseconds). -/
def Config.GetDuration (c : Config) (key : String) (defaultVal : List Int) : Int :=
  getTyped c key defaultVal 0 convDuration

/-- `Config.GetFloat`. -/
def Config.GetFloat (c : Config) (key : String) (defaultVal : List ℚ) : ℚ :=
  getTyped c key defaultVal 0 convFloat

/-- `Config.GetStringSlice` (the zero value is Go's nil slice). -/
def Config.GetStringSlice (c : Config) (key : String) (defaultVal : List (List String)) :
    List String :=
  getTyped c key defaultVal [] convStringSlice

/-! ### Retry middleware (RetrySource.Load) -/

/-- What one `RetrySource.Load` call did: its result, how many times
the inner `Load` ran, and the sleeps performed (nanoseconds). -/
structure RetryTrace where
  result : Except String GoMap
  calls : Nat
  sleeps : List Int

/-- The attempt loop of `RetrySource.Load`.  `inner i` is the outcome
of the inner source's i-th call; a sleep of `backoff * (attempt+1)`
happens between consecutive attempts. -/
def retryGo (inner : Nat → Except String GoMap) (maxAttempts : Nat) (backoff : Int)
    (attempt : Nat) (lastErr : String) (calls : Nat) (sleeps : List Int) : RetryTrace :=
  if attempt < maxAttempts then
    match inner attempt with
    | Except.ok d => ⟨Except.ok d, calls + 1, sleeps⟩
    | Except.error e =>
      if attempt < maxAttempts - 1 then
        retryGo inner maxAttempts backoff (attempt + 1) e (calls + 1)
          (sleeps ++ [backoff * (Int.ofNat (attempt + 1))])
      else retryGo inner maxAttempts backoff (attempt + 1) e (calls + 1) sleeps
  else
    ⟨Except.error ("failed after " ++ natToString maxAttempts ++ " attempts: " ++ lastErr),
     calls, sleeps⟩
termination_by maxAttempts - attempt
decreasing_by all_goals omega

/-- `RetrySource.Load`. -/
def RetrySourceLoad (inner : Nat → Except String GoMap) (maxAttempts : Nat)
    (backoff : Int) : RetryTrace :=
  retryGo inner maxAttempts backoff 0 "" 0 []

/-- The sleeps an exhausted retry performs, starting after attempt
`lo`, `k` sleeps in all (helper for stating the retry loop invariant). -/
def sleepSeq (b : Int) : Nat → Nat → List Int
  | _, 0 => []
  | lo, k + 1 => b * Int.ofNat (lo + 1) :: sleepSeq b (lo + 1) k

/-! ### Cache middleware (CachedSource.Load) -/

/-- The mutable fields of a `CachedSource`. -/
structure CachedState where
  cache : Option GoMap
  cachedAt : Int

/-- What one `CachedSource.Load` call produced: its result, the state
afterwards, and whether the inner source was invoked. -/
structure CacheLoadResult where
  result : Except String GoMap
  state : CachedState
  calledInner : Bool

/-- The call-through path of `CachedSource.Load`: a failure leaves the
state untouched; a success stores a fresh copy stamped `now`. -/
def cachedCallThrough (st : CachedState) (innerResult : Except String GoMap)
    (now : Int) : CacheLoadResult :=
  match innerResult with
  | Except.error e => ⟨Except.error e, st, true⟩
  | Except.ok d => ⟨Except.ok d, { cache := some d, cachedAt := now }, true⟩

/-- `CachedSource.Load` at wall-clock `now`: return the stored copy
while it is younger than the TTL, call through otherwise. -/
def CachedSourceLoad (st : CachedState) (ttl : Int) (innerResult : Except String GoMap)
    (now : Int) : CacheLoadResult :=
  match st.cache with
  | some c =>
      if now - st.cachedAt < ttl then ⟨Except.ok c, st, false⟩
      else cachedCallThrough st innerResult now
  | none => cachedCallThrough st innerResult now

/-! ### Profiles (ProfileManager) -/

/-- A `ProfileManager` with its owning engine. -/
structure ProfileManagerM where
  config : Config
  profiles : List (String × GoMap)
  active : String

/-- Errors of `SetActiveProfile`. -/
inductive ProfileError where
  | missing : String → ProfileError
  | loadFailed : LoadError → ProfileError

/-- `ProfileManager.applyProfile`: drop sources whose name starts with
`profile:`, add the profile's data as a `memory` source at priority
1000, re-sort, reload. -/
def applyProfile (pm : ProfileManagerM) (name : String) :
    ProfileManagerM × Option ProfileError :=
  match alookup pm.profiles name with
  | none => (pm, some (ProfileError.missing name))
  | some data =>
    let src := MemoryWithPriority data 1000
    let kept := pm.config.sources.filter (fun s => !(s.name.startsWith "profile:"))
    let c1 := { pm.config with sources := sortSources (kept ++ [src]) }
    let r := c1.Load
    ({ pm with config := r.config }, r.err.map ProfileError.loadFailed)

/-- `ProfileManager.SetActiveProfile`: existence check, record the
active name, apply. -/
def SetActiveProfile (pm : ProfileManagerM) (name : String) :
    ProfileManagerM × Option ProfileError :=
  match alookup pm.profiles name with
  | none => (pm, some (ProfileError.missing name))
  | some _ => applyProfile { pm with active := name } name

/-! ### A model of the external rule engine

Modelled from the spec: the declarative rule expressions are evaluated
by the external go-playground validator, which is not part of this
repository.  This model covers the tags the claims exercise
(`required`, `min`, `max` on integers and strings), rendering the
messages of `validationMessage` in builder.go. -/

/-- Split a character list on a separator character. -/
def splitOnChar (c : Char) : List Char → List (List Char)
  | [] => [[]]
  | x :: rest =>
    let r := splitOnChar c rest
    if x = c then [] :: r
    else
      match r with
      | h :: t => (x :: h) :: t
      | [] => [[x]]

/-- A positive decimal tag parameter (the only shape the modelled tags
use). -/
def paramInt (cs : List Char) : Int :=
  Int.ofNat (cs.foldl (fun a c => a * 10 + (c.toNat - 48)) 0)

/-- Whether a value is Go's zero value of its type (what the external
validator's `required` tag rejects). -/
def isZeroVal (v : GoVal) : Bool :=
  match v with
  | GoVal.vStr s => s == ""
  | GoVal.vInt n => n == 0
  | GoVal.vBool b => !b
  | GoVal.vList xs => xs.isEmpty
  | GoVal.vMap m => m.isEmpty

/-- One validator tag (as characters) applied to a value. -/
def v10CheckOne (v : GoVal) (tag : List Char) : Option String :=
  let parts := splitOnChar '=' tag
  let tname := String.mk (parts.headD [])
  let param := String.mk ((parts.drop 1).headD [])
  if tname = "required" then
    if isZeroVal v then some "is required" else none
  else if tname = "min" then
    let p : Int := paramInt param.toList
    match v with
    | GoVal.vInt n => if n < p then some ("must be >= " ++ param) else none
    | GoVal.vStr s => if (s.length : Int) < p then some ("must be >= " ++ param) else none
    | _ => none
  else if tname = "max" then
    let p : Int := paramInt param.toList
    match v with
    | GoVal.vInt n => if p < n then some ("must be <= " ++ param) else none
    | GoVal.vStr s => if p < (s.length : Int) then some ("must be <= " ++ param) else none
    | _ => none
  else none

/-- First failing tag of a comma-joined rule, as `validateValue`
surfaces only the first field error. -/
def v10CheckTags (v : GoVal) : List (List Char) → Option String
  | [] => none
  | tag :: rest =>
    match v10CheckOne v tag with
    | some msg => some msg
    | none => v10CheckTags v rest

/-- The modelled external rule engine, pluggable as a `valueChecker`:
evaluates whatever tag string it is handed (an empty tag imposes no
constraint, as in the external validator). -/
def v10CheckValue (v : GoVal) (rule : String) : Option String :=
  v10CheckTags v (splitOnChar ',' rule.toList)

/-! ### Concrete instances used by the witnesses -/

/-- A validator that accepts every present value. -/
def noChecker : GoVal → String → Option String := fun _ _ => none

/-- Low-priority source defining `k` and `onlyA`. -/
def srcA1 : Source :=
  { name := "A", priority := 1,
    load := Except.ok [("k", GoVal.vStr "va"), ("onlyA", GoVal.vStr "xa")] }

/-- High-priority source defining `k` and `onlyB`. -/
def srcB1 : Source :=
  { name := "B", priority := 2,
    load := Except.ok [("k", GoVal.vStr "vb"), ("onlyB", GoVal.vStr "yb")] }

/-- An engine with the two sources registered B-first. -/
def cfgC1 : Config := { baseConfig noChecker with sources := sortSources [srcB1, srcA1] }

/-- A profile manager with profiles `P` and `Q` on an empty engine. -/
def pmC2 : ProfileManagerM :=
  { config := baseConfig noChecker,
    profiles := [("P", [("pk", GoVal.vStr "pv")]), ("Q", [])], active := "" }

/-- An engine whose merged state stores a non-boolean token. -/
def cfgC3 : Config := { baseConfig noChecker with data := [("k", GoVal.vStr "banana")] }

/-- An engine with a `required` rule that the (empty) sources violate,
and pre-existing data that a load will replace. -/
def cfgC4 : Config :=
  { baseConfig v10CheckValue with
    validationRules := [("port", "required")], data := [("stale", GoVal.vStr "s")] }

/-- An engine whose pre-load hook fails. -/
def cfgC5a : Config :=
  { baseConfig noChecker with
    preLoad := [("boomhook", Except.error "boom")], data := [("x", GoVal.vInt 1)] }

/-- An engine whose post-load hook fails. -/
def cfgC5b : Config :=
  { baseConfig noChecker with
    postLoad := [("badhook", fun _ => Except.error "bad")], data := [("x", GoVal.vInt 1)] }

/-- An always-failing inner source. -/
def innerFailC6 : Nat → Except String GoMap := fun _ => Except.error "io down"

/-- Its per-attempt error messages. -/
def errsC6 : Nat → String := fun _ => "io down"

/-- An inner source that fails once, then succeeds. -/
def innerOkC6 : Nat → Except String GoMap := fun i =>
  if i = 0 then Except.error "x" else Except.ok [("d", GoVal.vInt 2)]

/-- An engine with a violated min/max rule on a present value. -/
def cfgC9a : Config :=
  { baseConfig v10CheckValue with
    validationRules := [("port", "min=1,max=100")], data := [("port", GoVal.vInt 200)] }

/-- An engine with a `required` rule and no value. -/
def cfgC9b : Config :=
  { baseConfig v10CheckValue with validationRules := [("host", "required")] }

/-- An engine with a non-`required` rule and no value. -/
def cfgC9c : Config :=
  { baseConfig v10CheckValue with validationRules := [("opt", "min=3")] }

/-!
## Helper lemmas
-/

theorem alookup_gInsert_self {α : Type} (m : List (String × α)) (k : String) (v : α) :
    alookup (gInsert m k v) k = some v := by
  induction m with
  | nil => simp [gInsert, alookup]
  | cons p rest ih =>
    obtain ⟨k1, v1⟩ := p
    by_cases h : k1 = k
    · simp [gInsert, h, alookup]
    · simp [gInsert, h, alookup, ih]

theorem alookup_gInsert_ne {α : Type} (m : List (String × α)) (k key : String) (v : α)
    (h : key ≠ k) : alookup (gInsert m k v) key = alookup m key := by
  induction m with
  | nil => simp [gInsert, alookup, Ne.symm h]
  | cons p rest ih =>
    obtain ⟨k1, v1⟩ := p
    by_cases h1 : k1 = k
    · subst h1
      simp [gInsert, alookup, Ne.symm h]
    · simp [gInsert, h1, alookup, ih]

theorem alookup_none_of_not_mem {α : Type} (m : List (String × α)) (k : String)
    (h : k ∉ keysOf m) : alookup m k = none := by
  induction m with
  | nil => simp [alookup]
  | cons p rest ih =>
    obtain ⟨k1, v1⟩ := p
    simp only [keysOf, List.map_cons, List.mem_cons, not_or] at h
    simp [alookup, Ne.symm h.1, ih (by simpa [keysOf] using h.2)]

theorem alookup_mem {α : Type} (m : List (String × α)) (k : String) (v : α)
    (h : alookup m k = some v) : (k, v) ∈ m := by
  induction m with
  | nil => simp [alookup] at h
  | cons p rest ih =>
    obtain ⟨k1, v1⟩ := p
    by_cases h1 : k1 = k
    · subst h1
      simp [alookup] at h
      simp [h]
    · simp [alookup, h1] at h
      simp [ih h]

theorem dmVal_none (v : GoVal) : dmVal none v = v := by
  cases v <;> rfl

theorem dmVal_not_map (o : Option GoVal) (v : GoVal) (h : v.isMap = false) :
    dmVal o v = v := by
  cases o with
  | none => exact dmVal_none v
  | some w => cases w <;> cases v <;> simp_all [dmVal, GoVal.isMap]

theorem deepMerge_nil (dst : GoMap) : deepMerge dst [] = dst := by
  simp [deepMerge]

theorem deepMerge_cons (dst : GoMap) (k : String) (v : GoVal) (rest : GoMap) :
    deepMerge dst ((k, v) :: rest) =
      deepMerge (gInsert dst k (dmVal (alookup dst k) v)) rest := by
  cases v with
  | vMap sm =>
    simp only [deepMerge]
    cases h : alookup dst k with
    | none => simp [dmVal]
    | some w => cases w <;> simp [dmVal]
  | vStr s => simp [deepMerge, dmVal]
  | vInt n => simp [deepMerge, dmVal]
  | vBool b => simp [deepMerge, dmVal]
  | vList xs => simp [deepMerge, dmVal]

theorem alookup_deepMerge_not_mem (src : GoMap) (k : String)
    (h : alookup src k = none) :
    ∀ dst : GoMap, alookup (deepMerge dst src) k = alookup dst k := by
  induction src with
  | nil => intro dst; simp [deepMerge_nil]
  | cons p rest ih =>
    intro dst
    obtain ⟨k1, v1⟩ := p
    by_cases h1 : k1 = k
    · simp [alookup, h1] at h
    · simp only [alookup, h1, if_false] at h
      rw [deepMerge_cons, ih h, alookup_gInsert_ne _ _ _ _ (fun hh => h1 hh.symm)]

theorem alookup_deepMerge_none_dst (src : GoMap) (k : String) (v : GoVal)
    (hnd : (keysOf src).Nodup) (hs : alookup src k = some v) :
    ∀ dst : GoMap, alookup dst k = none → alookup (deepMerge dst src) k = some v := by
  induction src with
  | nil => intro dst _; simp [alookup] at hs
  | cons p rest ih =>
    intro dst hd
    obtain ⟨k1, v1⟩ := p
    simp only [keysOf, List.map_cons, List.nodup_cons] at hnd
    by_cases h1 : k1 = k
    · subst h1
      have hs2 : v1 = v := by simpa [alookup] using hs
      subst hs2
      rw [deepMerge_cons, hd, dmVal_none]
      rw [alookup_deepMerge_not_mem rest k1
          (alookup_none_of_not_mem rest k1 (by simpa [keysOf] using hnd.1))]
      exact alookup_gInsert_self dst k1 v1
    · simp only [alookup, h1, if_false] at hs
      rw [deepMerge_cons]
      exact ih (by simpa [keysOf] using hnd.2) hs _
        (by rw [alookup_gInsert_ne _ _ _ _ (fun hh => h1 hh.symm)]; exact hd)

theorem alookup_deepMerge_scalar (src : GoMap) (k : String) (v : GoVal)
    (hnd : (keysOf src).Nodup) (hs : alookup src k = some v) (hv : v.isMap = false) :
    ∀ dst : GoMap, alookup (deepMerge dst src) k = some v := by
  induction src with
  | nil => intro dst; simp [alookup] at hs
  | cons p rest ih =>
    intro dst
    obtain ⟨k1, v1⟩ := p
    simp only [keysOf, List.map_cons, List.nodup_cons] at hnd
    by_cases h1 : k1 = k
    · subst h1
      have hs2 : v1 = v := by simpa [alookup] using hs
      subst hs2
      rw [deepMerge_cons, dmVal_not_map _ _ hv]
      rw [alookup_deepMerge_not_mem rest k1
          (alookup_none_of_not_mem rest k1 (by simpa [keysOf] using hnd.1))]
      exact alookup_gInsert_self dst k1 v1
    · simp only [alookup, h1, if_false] at hs
      rw [deepMerge_cons]
      exact ih (by simpa [keysOf] using hnd.2) hs _

theorem isMap_eq_false_of_isScalar (v : GoVal) (h : v.isScalar = true) :
    v.isMap = false := by
  cases v <;> simp_all [GoVal.isScalar, GoVal.isMap]

theorem sortSources_pair (A B : Source) (h : A.priority < B.priority) :
    sortSources [A, B] = [A, B] ∧ sortSources [B, A] = [A, B] := by
  have hgt : ¬ (B.priority < A.priority) := by omega
  constructor
  · simp [sortSources, insertSorted, hgt]
  · simp [sortSources, insertSorted, h]

/-!
## Claim theorems
-/

/-- C1: with exactly two registered sources of strictly increasing
priority whose loads succeed, a successful `Config.Load()` leaves the
higher-priority source's value at every key both define with scalar
values, and keys defined by only one source keep that source's value. -/
theorem load_merge_right_bias (A B : Source) (da db : GoMap) (c : Config)
    (hA : A.load = Except.ok da) (hB : B.load = Except.ok db)
    (hpri : A.priority < B.priority)
    (hreg : c.sources = sortSources [A, B] ∨ c.sources = sortSources [B, A])
    (hpre : c.preLoad = []) (hpost : c.postLoad = [])
    (hrules : c.validationRules = [])
    (hnda : (keysOf da).Nodup) (hndb : (keysOf db).Nodup) :
    (c.Load).err = none ∧
    (∀ k va vb, alookup da k = some va → alookup db k = some vb →
       va.isScalar = true → vb.isScalar = true →
       alookup (c.Load).config.data k = some vb) ∧
    (∀ k v, alookup da k = some v → alookup db k = none →
       alookup (c.Load).config.data k = some v) ∧
    (∀ k v, alookup da k = none → alookup db k = some v →
       alookup (c.Load).config.data k = some v) := by
  have hsrc : c.sources = [A, B] := by
    rcases hreg with h | h
    · rw [h, (sortSources_pair A B hpri).1]
    · rw [h, (sortSources_pair A B hpri).2]
  have hload : loadSources c.sources [] = Except.ok (deepMerge (deepMerge [] da) db) := by
    rw [hsrc]
    simp [loadSources, hA, hB]
  have herr : (c.Load).err = none := by
    simp [Config.Load, hpre, execPreLoad, hload, hpost, execPostLoad, hrules]
  have hdata : (c.Load).config.data = deepMerge (deepMerge [] da) db := by
    simp [Config.Load, hpre, execPreLoad, hload, hpost, execPostLoad, hrules]
  refine ⟨herr, ?_, ?_, ?_⟩
  · intro k va vb h1 h2 _ hsvb
    rw [hdata]
    exact alookup_deepMerge_scalar db k vb hndb h2 (isMap_eq_false_of_isScalar vb hsvb) _
  · intro k v h1 h2
    rw [hdata, alookup_deepMerge_not_mem db k h2]
    exact alookup_deepMerge_none_dst da k v hnda h1 [] (by simp [alookup])
  · intro k v h1 h2
    rw [hdata]
    exact alookup_deepMerge_none_dst db k v hndb h2 _
      (by rw [alookup_deepMerge_not_mem da k h1]; simp [alookup])

/-- Witness for C1 at two concrete sources registered B-first. -/
theorem load_merge_right_bias_witness :
    alookup ((cfgC1.Load).config.data) "k" = some (GoVal.vStr "vb") ∧
    alookup ((cfgC1.Load).config.data) "onlyA" = some (GoVal.vStr "xa") ∧
    alookup ((cfgC1.Load).config.data) "onlyB" = some (GoVal.vStr "yb") ∧
    (cfgC1.Load).err = none := by
  have h := load_merge_right_bias srcA1 srcB1
    [("k", GoVal.vStr "va"), ("onlyA", GoVal.vStr "xa")]
    [("k", GoVal.vStr "vb"), ("onlyB", GoVal.vStr "yb")]
    cfgC1 rfl rfl (by decide) (Or.inr rfl) rfl rfl rfl (by decide) (by decide)
  exact ⟨h.2.1 "k" (GoVal.vStr "va") (GoVal.vStr "vb") rfl rfl rfl rfl,
    h.2.2.1 "onlyA" (GoVal.vStr "xa") rfl rfl,
    h.2.2.2 "onlyB" (GoVal.vStr "yb") rfl rfl,
    h.1⟩

/-- C2: evaluation of the code on two profile switches.  `applyProfile`
names the synthetic source `memory` but removes previous ones by the
name prefix `profile:`, which never matches, so after activating `P`
then `Q` both priority-1000 synthetic sources remain registered and
`P`'s key `pk` (absent from `Q` and from every other source) is still
in the merged state — against the claim and the code's own comments. -/
theorem profile_switch_keeps_stale_source :
    (SetActiveProfile pmC2 "P").2 = none ∧
    (SetActiveProfile (SetActiveProfile pmC2 "P").1 "Q").2 = none ∧
    (SetActiveProfile (SetActiveProfile pmC2 "P").1 "Q").1.active = "Q" ∧
    alookup (SetActiveProfile (SetActiveProfile pmC2 "P").1 "Q").1.config.data "pk"
      = some (GoVal.vStr "pv") ∧
    ((SetActiveProfile (SetActiveProfile pmC2 "P").1 "Q").1.config.sources.filter
        (fun s => s.priority == 1000)).length = 2 := by
  have h1 : SetActiveProfile pmC2 "P" =
      (⟨{ baseConfig noChecker with
            sources := [MemoryWithPriority [("pk", GoVal.vStr "pv")] 1000],
            data := [("pk", GoVal.vStr "pv")] },
        [("P", [("pk", GoVal.vStr "pv")]), ("Q", [])], "P"⟩, none) := by
    simp [SetActiveProfile, applyProfile, pmC2, alookup, baseConfig, MemoryWithPriority,
      sortSources, insertSorted, Config.Load, execPreLoad, loadSources, execPostLoad,
      detectChanges, deepEqual, Config.ValidateAll, deepMerge_cons, deepMerge_nil, dmVal,
      gInsert, alookup_gInsert_self]
  rw [h1]
  simp [SetActiveProfile, applyProfile, pmC2, alookup, baseConfig, MemoryWithPriority,
    sortSources, insertSorted, Config.Load, execPreLoad, loadSources, execPostLoad,
    detectChanges, deepEqual, Config.ValidateAll, deepMerge_cons, deepMerge_nil, dmVal,
    gInsert, alookup_gInsert_self, List.filter]

/-- C3 counterexample: with `"banana"` stored at `k`, `GetBool` called
with explicit default `true` returns `false`, not the supplied default,
refuting the claim that an uncoercible stored value yields the default. -/
theorem getBool_unrecognized_token_counterexample :
    cfgC3.Get "k" = some (GoVal.vStr "banana") ∧ cfgC3.GetBool "k" [true] = false := by
  constructor
  · rfl
  · simp [Config.GetBool, getTyped, Config.Get, cfgC3, baseConfig, alookup, convBool,
      goSprint, sprintF, defaultsOr]

theorem convString_isSome (v : GoVal) : (convString v).isSome = true := by
  cases v <;> simp [convString]

theorem convBool_isSome (v : GoVal) : (convBool v).isSome = true := by
  cases v <;> simp [convBool]

/-- C3 amended: every getter returns its explicit default when the key
is absent; `GetInt`, `GetDuration`, `GetFloat` and `GetStringSlice`
also return it when the stored value fails to coerce; but `GetString`
and `GetBool` coerce every stored value — with the key present they
never consult the default, and `GetBool` yields `false` (not the
default) for a stored string that is no recognized boolean token. -/
theorem getter_defaults_exactly (c : Config) (k : String) :
    (c.Get k = none →
       (∀ d : String, c.GetString k [d] = d) ∧
       (∀ d : Int, c.GetInt k [d] = d) ∧
       (∀ d : Bool, c.GetBool k [d] = d) ∧
       (∀ d : Int, c.GetDuration k [d] = d) ∧
       (∀ d : ℚ, c.GetFloat k [d] = d) ∧
       (∀ d : List String, c.GetStringSlice k [d] = d)) ∧
    (∀ v, c.Get k = some v →
       (convInt v = none → ∀ d, c.GetInt k [d] = d) ∧
       (convDuration v = none → ∀ d, c.GetDuration k [d] = d) ∧
       (convFloat v = none → ∀ d, c.GetFloat k [d] = d) ∧
       (convStringSlice v = none → ∀ d, c.GetStringSlice k [d] = d)) ∧
    (∀ v d1 d2, c.Get k = some v → c.GetString k [d1] = c.GetString k [d2]) ∧
    (∀ v d1 d2, c.Get k = some v → c.GetBool k [d1] = c.GetBool k [d2]) ∧
    (∀ s d, c.Get k = some (GoVal.vStr s) →
       s ≠ "true" → s ≠ "1" → s ≠ "yes" → c.GetBool k [d] = false) := by
  refine ⟨?_, ?_, ?_, ?_, ?_⟩
  · intro h
    refine ⟨?_, ?_, ?_, ?_, ?_, ?_⟩ <;> intro d <;>
      simp [Config.GetString, Config.GetInt, Config.GetBool, Config.GetDuration,
        Config.GetFloat, Config.GetStringSlice, getTyped, h, defaultsOr]
  · intro v hv
    refine ⟨?_, ?_, ?_, ?_⟩ <;> intro hc d <;>
      simp [Config.GetInt, Config.GetDuration, Config.GetFloat, Config.GetStringSlice,
        getTyped, hv, hc, defaultsOr]
  · intro v d1 d2 hv
    obtain ⟨s, hs⟩ := Option.isSome_iff_exists.mp (convString_isSome v)
    simp [Config.GetString, getTyped, hv, hs]
  · intro v d1 d2 hv
    obtain ⟨b, hb⟩ := Option.isSome_iff_exists.mp (convBool_isSome v)
    simp [Config.GetBool, getTyped, hv, hb]
  · intro s d hv h1 h2 h3
    have e1 : (s == "true") = false := beq_eq_false_iff_ne.mpr h1
    have e2 : (s == "1") = false := beq_eq_false_iff_ne.mpr h2
    have e3 : (s == "yes") = false := beq_eq_false_iff_ne.mpr h3
    simp [Config.GetBool, getTyped, hv, convBool, goSprint, sprintF, e1, e2, e3]

/-- Witness for C3's amended claim at concrete engines. -/
theorem getter_defaults_exactly_witness :
    cfgC3.GetString "missing" ["dflt"] = "dflt" ∧
    cfgC3.GetInt "missing" [7] = 7 ∧
    cfgC3.GetInt "k" [7] = 7 ∧
    cfgC3.GetBool "k" [true] = cfgC3.GetBool "k" [false] ∧
    cfgC3.GetBool "k" [true] = false := by
  have h := getter_defaults_exactly cfgC3 "missing"
  have h2 := getter_defaults_exactly cfgC3 "k"
  refine ⟨(h.1 rfl).1 "dflt", (h.1 rfl).2.1 7, ?_, ?_, ?_⟩
  · exact ((h2.2.1 (GoVal.vStr "banana") rfl).1
      (by simp [convInt, goSprint, sprintF, sscanInt]) 7)
  · exact h2.2.2.2.1 (GoVal.vStr "banana") true false rfl
  · exact h2.2.2.2.2 "banana" true rfl (by decide) (by decide) (by decide)

/-- C4: when hooks and sources succeed but `ValidateAll` rejects the
newly accumulated map, `Load()` returns a validation error and the
engine's stored state nevertheless equals that new map — the merge was
committed before validation and is not rolled back. -/
theorem load_commits_before_validation (c : Config) (m1 m2 : GoMap)
    (errs : List (String × String))
    (hpre : execPreLoad c.preLoad = none)
    (hsrc : loadSources c.sources [] = Except.ok m1)
    (hpost : execPostLoad m1 c.postLoad = Except.ok m2)
    (hrules : c.validationRules ≠ [])
    (hval : Config.ValidateAll { c with data := m2 } = some errs) :
    (c.Load).err = some (LoadError.validation errs) ∧ (c.Load).config.data = m2 := by
  have hne : c.validationRules.isEmpty = false := by
    cases h : c.validationRules
    · exact absurd h hrules
    · simp [List.isEmpty]
  constructor <;> simp [Config.Load, hpre, hsrc, hpost, hne, hval]

/-- Witness for C4: a `required` rule violated by an empty merge; the
pre-load data `stale` is replaced by the committed empty map even
though `Load` returns the validation error. -/
theorem load_commits_before_validation_witness :
    (cfgC4.Load).err = some (LoadError.validation [("port", "is required")]) ∧
    (cfgC4.Load).config.data = [] := by
  have h := load_commits_before_validation cfgC4 [] [] [("port", "is required")]
    rfl rfl rfl (by decide) (by decide)
  exact ⟨h.1, h.2⟩

/-- C5: a failing pre-load or post-load hook makes `Load()` return an
error with the engine left exactly as before the call — no state
replacement and no observer notification. -/
theorem hook_failure_preserves_state (c : Config) :
    (∀ n e, execPreLoad c.preLoad = some (n, e) →
       c.Load = ⟨c, some (LoadError.preLoadHook n e), none⟩) ∧
    (∀ m1 n e, execPreLoad c.preLoad = none →
       loadSources c.sources [] = Except.ok m1 →
       execPostLoad m1 c.postLoad = Except.error (n, e) →
       c.Load = ⟨c, some (LoadError.postLoadHook n e), none⟩) := by
  constructor
  · intro n e h
    simp [Config.Load, h]
  · intro m1 n e h1 h2 h3
    simp [Config.Load, h1, h2, h3]

/-- Witness for C5 at a failing pre-load hook and a failing post-load
hook. -/
theorem hook_failure_preserves_state_witness :
    cfgC5a.Load = ⟨cfgC5a, some (LoadError.preLoadHook "boomhook" "boom"), none⟩ ∧
    cfgC5b.Load = ⟨cfgC5b, some (LoadError.postLoadHook "badhook" "bad"), none⟩ :=
  ⟨(hook_failure_preserves_state cfgC5a).1 "boomhook" "boom" rfl,
   (hook_failure_preserves_state cfgC5b).2 [] "badhook" "bad" rfl rfl rfl⟩

theorem sleepSeq_eq_range (b : Int) :
    ∀ m lo, sleepSeq b lo m = (List.range m).map (fun i => b * Int.ofNat (lo + i + 1)) := by
  intro m
  induction m with
  | zero => intro lo; simp [sleepSeq]
  | succ m ih =>
    intro lo
    rw [List.range_succ_eq_map, List.map_cons, List.map_map]
    rw [sleepSeq, ih (lo + 1)]
    have h0 : lo + 0 + 1 = lo + 1 := by omega
    have hf : ((fun i => b * Int.ofNat (lo + i + 1)) ∘ Nat.succ) =
        (fun i => b * Int.ofNat (lo + 1 + i + 1)) := by
      funext i
      simp only [Function.comp]
      congr 2
      omega
    rw [h0, hf]

theorem retryGo_all_fail (inner : Nat → Except String GoMap) (errs : Nat → String)
    (n : Nat) (b : Int) (hfail : ∀ i, i < n → inner i = Except.error (errs i)) :
    ∀ f attempt lastErr calls sleeps, attempt < n → n - attempt = f + 1 →
      retryGo inner n b attempt lastErr calls sleeps =
        ⟨Except.error ("failed after " ++ natToString n ++ " attempts: " ++ errs (n - 1)),
         calls + (n - attempt),
         sleeps ++ sleepSeq b attempt (n - 1 - attempt)⟩ := by
  intro f
  induction f with
  | zero =>
    intro attempt lastErr calls sleeps hlt hf
    have hat : attempt = n - 1 := by omega
    subst hat
    rw [retryGo, if_pos hlt, hfail _ hlt]
    dsimp only
    rw [if_neg (by omega)]
    rw [retryGo, if_neg (by omega)]
    have h2 : n - (n - 1) = 1 := by omega
    have h3 : n - 1 - (n - 1) = 0 := by omega
    rw [h2, h3]
    simp [sleepSeq]
  | succ f ih =>
    intro attempt lastErr calls sleeps hlt hf
    rw [retryGo, if_pos hlt, hfail attempt hlt]
    dsimp only
    rw [if_pos (by omega)]
    rw [ih (attempt + 1) (errs attempt) (calls + 1)
      (sleeps ++ [b * Int.ofNat (attempt + 1)]) (by omega) (by omega)]
    have hcalls : calls + 1 + (n - (attempt + 1)) = calls + (n - attempt) := by omega
    have hrange : n - 1 - attempt = (n - 1 - (attempt + 1)) + 1 := by omega
    rw [hcalls, hrange, sleepSeq]
    simp

theorem retryGo_success (inner : Nat → Except String GoMap) (errs : Nat → String)
    (n : Nat) (b : Int) (j : Nat) (d : GoMap) (hj : j < n)
    (hok : inner j = Except.ok d)
    (hfail : ∀ i, i < j → inner i = Except.error (errs i)) :
    ∀ f attempt lastErr calls sleeps, attempt ≤ j → j - attempt = f →
      (retryGo inner n b attempt lastErr calls sleeps).result = Except.ok d ∧
      (retryGo inner n b attempt lastErr calls sleeps).calls = calls + (j - attempt) + 1 := by
  intro f
  induction f with
  | zero =>
    intro attempt lastErr calls sleeps hle hf
    have hat : attempt = j := by omega
    subst hat
    rw [retryGo, if_pos (by omega), hok]
    simp
  | succ f ih =>
    intro attempt lastErr calls sleeps hle hf
    have hlt : attempt < j := by omega
    rw [retryGo, if_pos (by omega), hfail attempt hlt]
    dsimp only
    rw [if_pos (by omega)]
    have h := ih (attempt + 1) (errs attempt) (calls + 1)
      (sleeps ++ [b * Int.ofNat (attempt + 1)]) (by omega) (by omega)
    exact ⟨h.1, by rw [h.2]; omega⟩

/-- C6: wrapping an always-failing inner source, `RetrySource.Load`
calls it exactly `maxAttempts` times, sleeps `backoff × attempt-index`
between consecutive attempts, and fails with an error naming the
attempt count and ending in the last inner error; while a first
success at attempt `j` is returned immediately after `j + 1` calls. -/
theorem retry_exhaustion_and_success (inner : Nat → Except String GoMap)
    (errs : Nat → String) (n : Nat) (b : Int) (hn : 1 ≤ n) :
    ((∀ i, i < n → inner i = Except.error (errs i)) →
       RetrySourceLoad inner n b =
         ⟨Except.error ("failed after " ++ natToString n ++ " attempts: " ++ errs (n - 1)),
          n, (List.range (n - 1)).map (fun i => b * Int.ofNat (i + 1))⟩) ∧
    (∀ j d, j < n → inner j = Except.ok d →
       (∀ i, i < j → inner i = Except.error (errs i)) →
       (RetrySourceLoad inner n b).result = Except.ok d ∧
       (RetrySourceLoad inner n b).calls = j + 1) := by
  constructor
  · intro hfail
    rw [RetrySourceLoad, retryGo_all_fail inner errs n b hfail (n - 1) 0 "" 0 []
      (by omega) (by omega)]
    rw [sleepSeq_eq_range]
    simp
  · intro j d hj hok hfail
    have h := retryGo_success inner errs n b j d hj hok hfail j 0 "" 0 []
      (by omega) (by omega)
    rw [RetrySourceLoad]
    exact ⟨h.1, by rw [h.2]; omega⟩

/-- Witness for C6: `maxAttempts = 3`, backoff 7 on an always-failing
source — 3 calls, sleeps 7 and 14, error naming 3 attempts — and a
succeed-on-second-attempt source returned after 2 calls. -/
theorem retry_exhaustion_and_success_witness :
    RetrySourceLoad innerFailC6 3 7 =
      ⟨Except.error "failed after 3 attempts: io down", 3, [7, 14]⟩ ∧
    (RetrySourceLoad innerOkC6 3 7).result = Except.ok [("d", GoVal.vInt 2)] ∧
    (RetrySourceLoad innerOkC6 3 7).calls = 2 := by
  refine ⟨?_, ?_⟩
  · have h := (retry_exhaustion_and_success innerFailC6 errsC6 3 7 (by omega)).1
      (fun i _ => rfl)
    rw [h]
    simp [natToString, digitsLSF, digitChar, errsC6, List.range_succ]
  · exact (retry_exhaustion_and_success innerOkC6 (fun _ => "x") 3 7 (by omega)).2
      1 [("d", GoVal.vInt 2)] (by omega) rfl
      (fun i hi => by interval_cases i; rfl)

/-- C7: `CachedSource.Load` within the TTL of a successful load
returns the stored copy without invoking the inner source; past the
TTL (or with nothing cached yet) it invokes the inner source, storing
a fresh copy stamped with the new time on success, while a failure
leaves both the stored copy and the timestamp unchanged and returns
the error. -/
theorem cached_ttl_behavior (st : CachedState) (ttl now : Int)
    (inner : Except String GoMap) :
    (∀ cd, st.cache = some cd → now - st.cachedAt < ttl →
       CachedSourceLoad st ttl inner now = ⟨Except.ok cd, st, false⟩) ∧
    ((st.cache = none ∨ ttl ≤ now - st.cachedAt) →
       (CachedSourceLoad st ttl inner now).calledInner = true ∧
       (∀ d, inner = Except.ok d →
          CachedSourceLoad st ttl inner now = ⟨Except.ok d, ⟨some d, now⟩, true⟩) ∧
       (∀ e, inner = Except.error e →
          CachedSourceLoad st ttl inner now = ⟨Except.error e, st, true⟩)) := by
  constructor
  · intro cd hc hin
    simp [CachedSourceLoad, hc, hin]
  · intro hmiss
    have hthrough : CachedSourceLoad st ttl inner now = cachedCallThrough st inner now := by
      rcases hmiss with h | h
      · simp [CachedSourceLoad, h]
      · cases hc : st.cache with
        | none => simp [CachedSourceLoad, hc]
        | some cd =>
          simp only [CachedSourceLoad, hc]
          rw [if_neg (by omega)]
    rw [hthrough]
    refine ⟨?_, ?_, ?_⟩
    · cases inner <;> simp [cachedCallThrough]
    · intro d hd
      rw [hd]
      simp [cachedCallThrough]
    · intro e he
      rw [he]
      simp [cachedCallThrough]

/-- Witness for C7: a warm cache hit at `now = 120`, a TTL-expired
call-through at `now = 200` that restamps the cache, and a failing
call-through that leaves the state untouched. -/
theorem cached_ttl_behavior_witness :
    CachedSourceLoad ⟨some [("a", GoVal.vInt 1)], 100⟩ 50 (Except.ok [("b", GoVal.vInt 2)]) 120
      = ⟨Except.ok [("a", GoVal.vInt 1)], ⟨some [("a", GoVal.vInt 1)], 100⟩, false⟩ ∧
    CachedSourceLoad ⟨some [("a", GoVal.vInt 1)], 100⟩ 50 (Except.ok [("b", GoVal.vInt 2)]) 200
      = ⟨Except.ok [("b", GoVal.vInt 2)], ⟨some [("b", GoVal.vInt 2)], 200⟩, true⟩ ∧
    CachedSourceLoad ⟨some [("a", GoVal.vInt 1)], 100⟩ 50 (Except.error "down") 200
      = ⟨Except.error "down", ⟨some [("a", GoVal.vInt 1)], 100⟩, true⟩ ∧
    CachedSourceLoad ⟨none, 0⟩ 50 (Except.ok [("b", GoVal.vInt 2)]) 7
      = ⟨Except.ok [("b", GoVal.vInt 2)], ⟨some [("b", GoVal.vInt 2)], 7⟩, true⟩ :=
  ⟨(cached_ttl_behavior ⟨some [("a", GoVal.vInt 1)], 100⟩ 50 120
      (Except.ok [("b", GoVal.vInt 2)])).1 [("a", GoVal.vInt 1)] rfl (by decide),
   ((cached_ttl_behavior ⟨some [("a", GoVal.vInt 1)], 100⟩ 50 200
      (Except.ok [("b", GoVal.vInt 2)])).2 (Or.inr (by decide))).2.1 [("b", GoVal.vInt 2)] rfl,
   ((cached_ttl_behavior ⟨some [("a", GoVal.vInt 1)], 100⟩ 50 200
      (Except.error "down")).2 (Or.inr (by decide))).2.2 "down" rfl,
   ((cached_ttl_behavior ⟨none, 0⟩ 50 7
      (Except.ok [("b", GoVal.vInt 2)])).2 (Or.inl rfl)).2.1 [("b", GoVal.vInt 2)] rfl⟩

theorem string_data_inj {s t : String} (h : s.data = t.data) : s = t := by
  cases s
  cases t
  exact congrArg String.mk (by simpa using h)

theorem string_append_left_cancel {a b c : String} (h : a ++ b = a ++ c) : b = c := by
  have hd := congrArg String.data h
  simp only [String.data_append] at hd
  exact string_data_inj (List.append_cancel_left hd)

theorem natToString_len_pos (i : Nat) : 1 ≤ (natToString i).length := by
  by_cases h : i = 0
  · subst h
    decide
  · rw [natToString, if_neg h]
    have hlen : (String.mk (((digitsLSF i).map digitChar).reverse)).length =
        (((digitsLSF i).map digitChar).reverse).length := rfl
    rw [hlen]
    simp only [List.length_reverse, List.length_map]
    match i, h with
    | m + 1, _ =>
      rw [digitsLSF]
      simp

theorem key_index_ne_base (k : String) (i : Nat) : k ++ "." ++ natToString i ≠ k := by
  intro h
  have hlen := congrArg String.length h
  simp only [String.length_append] at hlen
  have h1 : ".".length = 1 := rfl
  have h2 := natToString_len_pos i
  omega

theorem key_index_inj (k : String) {m j : Nat}
    (h : k ++ "." ++ natToString m = k ++ "." ++ natToString j) : m = j := by
  rw [String.append_assoc, String.append_assoc] at h
  exact natToString_inj m j (string_append_left_cancel (string_append_left_cancel h))

theorem flattenF_scalar (f : Nat) (p : String) (x : GoVal) (out : GoMap)
    (h : x.isScalar = true) : flattenF f p x out = gInsert out p x := by
  cases x <;> simp_all [flattenF, GoVal.isScalar]

theorem foldFlat_preserve (f : Nat) (k : String) :
    ∀ (xs : List GoVal) (j : Nat) (acc : GoMap) (key : String),
      (∀ x ∈ xs, x.isScalar = true) →
      (∀ m, j ≤ m → key ≠ k ++ "." ++ natToString m) →
      alookup ((List.enumFrom j xs).foldl
        (fun acc p => flattenF f (k ++ "." ++ natToString p.1) p.2 acc) acc) key
      = alookup acc key := by
  intro xs
  induction xs with
  | nil => intro j acc key _ _; simp [List.enumFrom]
  | cons x rest ih =>
    intro j acc key hsc h
    simp only [List.enumFrom, List.foldl_cons]
    rw [flattenF_scalar f _ x acc (hsc x (by simp))]
    rw [ih (j + 1) _ key (fun y hy => hsc y (by simp [hy])) (fun m hm => h m (by omega))]
    exact alookup_gInsert_ne _ _ _ _ (h j (by omega))

theorem foldFlat_get (f : Nat) (k : String) :
    ∀ (xs : List GoVal) (j : Nat) (acc : GoMap) (i : Nat) (hi : i < xs.length),
      (∀ x ∈ xs, x.isScalar = true) →
      alookup ((List.enumFrom j xs).foldl
        (fun acc p => flattenF f (k ++ "." ++ natToString p.1) p.2 acc) acc)
        (k ++ "." ++ natToString (j + i)) = some (xs.get ⟨i, hi⟩) := by
  intro xs
  induction xs with
  | nil => intro j acc i hi; simp at hi
  | cons x rest ih =>
    intro j acc i hi hsc
    simp only [List.enumFrom, List.foldl_cons]
    rw [flattenF_scalar f _ x acc (hsc x (by simp))]
    cases i with
    | zero =>
      simp only [Nat.add_zero]
      rw [foldFlat_preserve f k rest (j + 1) _ (k ++ "." ++ natToString j)
        (fun y hy => hsc y (by simp [hy]))
        (fun m hm heq => by have := key_index_inj k heq; omega)]
      simpa using alookup_gInsert_self acc (k ++ "." ++ natToString j) x
    | succ i2 =>
      have harith : j + (i2 + 1) = (j + 1) + i2 := by omega
      rw [harith]
      rw [ih (j + 1) _ i2 (by simpa using hi) (fun y hy => hsc y (by simp [hy]))]
      simp

/-- C8 counterexample: a list whose element is a nested map — `k.0`
does not hold the element (the element is flattened further instead),
refuting the claim for non-scalar elements. -/
theorem flatten_nonscalar_element_counterexample :
    alookup [("k", GoVal.vList [GoVal.vMap [("a", GoVal.vStr "x")]])] "k"
      = some (GoVal.vList [GoVal.vMap [("a", GoVal.vStr "x")]]) ∧
    0 < [GoVal.vMap [("a", GoVal.vStr "x")]].length ∧
    alookup (flattenToDot [("k", GoVal.vList [GoVal.vMap [("a", GoVal.vStr "x")]])]) "k.0"
      = none ∧
    alookup (flattenToDot [("k", GoVal.vList [GoVal.vMap [("a", GoVal.vStr "x")]])]) "k.0.a"
      = some (GoVal.vStr "x") := by
  refine ⟨rfl, by decide, ?_, ?_⟩ <;>
    simp [flattenToDot, flatten, flattenF, joinKeys, joinList, goSprint, gsize, gsizeM,
      gsizeL, sprintF, gInsert, natToString, digitsLSF, digitChar, List.enum, alookup,
      sortEntries, insertByKeyAsc]

/-- C8 amended: for a list of *scalar* elements stored at `k`,
flattening yields the comma-joined string form at `k` itself and the
i-th element at `k.i` for every index; a non-scalar element is instead
flattened further below `k.i`. -/
theorem flatten_scalar_list_amended (k : String) (xs : List GoVal)
    (hsc : ∀ x ∈ xs, x.isScalar = true) :
    alookup (flattenToDot [(k, GoVal.vList xs)]) k = some (GoVal.vStr (joinList xs)) ∧
    (∀ i (hi : i < xs.length),
       alookup (flattenToDot [(k, GoVal.vList xs)]) (k ++ "." ++ natToString i)
         = some (xs.get ⟨i, hi⟩)) := by
  have hred : flattenToDot [(k, GoVal.vList xs)] =
      gInsert ((List.enumFrom 0 xs).foldl
        (fun acc p => flattenF (gsizeL xs) (k ++ "." ++ natToString p.1) p.2 acc) [])
        k (GoVal.vStr (joinList xs)) := by
    rw [flattenToDot, flatten]
    have hg : gsize (GoVal.vMap [(k, GoVal.vList xs)]) = (1 + gsizeL xs) + 1 := by
      simp [gsize, gsizeM]
      omega
    rw [hg]
    simp only [flattenF, List.foldl_cons, List.foldl_nil]
    rw [show joinKeys "" k = k from rfl]
    have h1 : 1 + gsizeL xs = gsizeL xs + 1 := by omega
    rw [h1]
    simp only [flattenF]
    rw [List.enum]
  constructor
  · rw [hred]
    exact alookup_gInsert_self _ k _
  · intro i hi
    rw [hred, alookup_gInsert_ne _ _ _ _ (key_index_ne_base k i)]
    have h := foldFlat_get (gsizeL xs) k xs 0 [] i hi hsc
    rw [Nat.zero_add] at h
    exact h

/-- Witness for C8's amended claim at the spec's own example. -/
theorem flatten_scalar_list_amended_witness :
    alookup (flattenToDot [("hosts", GoVal.vList [GoVal.vStr "a", GoVal.vStr "b"])]) "hosts"
      = some (GoVal.vStr "a,b") ∧
    alookup (flattenToDot [("hosts", GoVal.vList [GoVal.vStr "a", GoVal.vStr "b"])]) "hosts.0"
      = some (GoVal.vStr "a") ∧
    alookup (flattenToDot [("hosts", GoVal.vList [GoVal.vStr "a", GoVal.vStr "b"])]) "hosts.1"
      = some (GoVal.vStr "b") := by
  have h := flatten_scalar_list_amended "hosts" [GoVal.vStr "a", GoVal.vStr "b"] (by decide)
  have hj : joinList [GoVal.vStr "a", GoVal.vStr "b"] = "a,b" := by
    simp [joinList, goSprint, sprintF]
    rfl
  have h0 : "hosts" ++ "." ++ natToString 0 = "hosts.0" := by
    simp [natToString]
  have h1 : "hosts" ++ "." ++ natToString 1 = "hosts.1" := by
    simp [natToString, digitsLSF, digitChar]
  refine ⟨?_, ?_, ?_⟩
  · have := h.1
    rw [hj] at this
    exact this
  · have := h.2 0 (by decide)
    rw [h0] at this
    exact this
  · have := h.2 1 (by decide)
    rw [h1] at this
    exact this

theorem structTagGet_mangled (rule : String) :
    structTagGet ("validate:\"" ++ goQuote rule ++ "\"") "validate" = "" := rfl

/-- C9: evaluation of the code at the failing input.  builder.go:772
builds the struct tag with format `validate:"%q"`; `%q` supplies its
own quotes, so `StructTag.Get("validate")` scans an empty quoted
section and the external validator receives an empty effective tag for
*every* rule — a present value violating `min=1,max=100` does NOT make
`ValidateKey` fail, against the claim.  The rule fed intact to the
validator model would reject the value, and the required-on-missing
paths (checked directly, bypassing `validateValue`) still behave as
the claim says. -/
theorem validateKey_inert_on_present_values :
    cfgC9a.ValidateKey "port" = none ∧
    v10CheckValue (GoVal.vInt 200) "min=1,max=100" = some "must be <= 100" ∧
    (∀ rule : String,
       structTagGet ("validate:\"" ++ goQuote rule ++ "\"") "validate" = "") ∧
    cfgC9a.ValidateAll = none ∧
    cfgC9b.ValidateKey "host" ≠ none ∧
    cfgC9b.ValidateAll = some [("host", "is required")] ∧
    cfgC9c.ValidateKey "opt" = none :=
  ⟨rfl, rfl, structTagGet_mangled, rfl, by decide, rfl, rfl⟩

/-- C10: every typed getter called without a default on a key absent
from the merged state returns the zero value of its type. -/
theorem getters_zero_value_on_missing (c : Config) (k : String) (h : c.Get k = none) :
    c.GetString k [] = "" ∧ c.GetInt k [] = 0 ∧ c.GetBool k [] = false ∧
    c.GetDuration k [] = 0 ∧ c.GetFloat k [] = 0 ∧ c.GetStringSlice k [] = [] := by
  refine ⟨?_, ?_, ?_, ?_, ?_, ?_⟩ <;>
    simp [Config.GetString, Config.GetInt, Config.GetBool, Config.GetDuration,
      Config.GetFloat, Config.GetStringSlice, getTyped, h, defaultsOr]

/-- Witness for C10 at a concrete engine and key. -/
theorem getters_zero_value_on_missing_witness :
    cfgC3.GetString "absent" [] = "" ∧ cfgC3.GetInt "absent" [] = 0 ∧
    cfgC3.GetBool "absent" [] = false ∧ cfgC3.GetDuration "absent" [] = 0 ∧
    cfgC3.GetFloat "absent" [] = 0 ∧ cfgC3.GetStringSlice "absent" [] = [] :=
  getters_zero_value_on_missing cfgC3 "absent" rfl

end GoConfig
